import Mathlib

/-!
Verification development for the multi-view analysis-by-synthesis fitter
`RGB_Fitting/model/mv_uvtex_wspace_shape_joint_fitter.py` (class `MVFitter`).

The development shallowly embeds the parameter-state initialization
(coefficient packing, latent initialization), the optimizer parameter-group
construction, the cosine learning-rate rampdown, the loss aggregation, and
the iteration/finalization loop, and proves the layout, gating, scheduling
and frame properties stated about them.

Tensors are modelled as lists of rationals together with the
gradient-tracking flag and a storage identity; external collaborators
(face model, texture gan, renderer, recognition network) enter as abstract
functions, with their contracted interfaces taken from the code that calls
them.
-/

namespace MVF

/-- Model of a torch tensor: the (flattened, batch 1) data, the
`requires_grad` autograd flag, and a storage identity used to express
aliasing versus fresh copies. -/
structure Tensor where
  data : List ℚ
  requires_grad : Bool
  storage : ℕ
deriving DecidableEq, Repr

/-- Models `t.detach()`: same storage, gradient tracking dropped. -/
def Tensor.detach (t : Tensor) : Tensor :=
  { t with requires_grad := false }

/-- Models `t.clone()`: same data and flag, copied into the fresh storage
supplied by the caller. -/
def Tensor.clone (t : Tensor) (fresh : ℕ) : Tensor :=
  { t with storage := fresh }

/-- Models evaluating a collaborator under `torch.no_grad()`: the result
carries no gradient-tracking metadata. -/
def noGrad (t : Tensor) : Tensor :=
  { t with requires_grad := false }

/-- Result of `facemodel.split_coeff` on one per-view coefficient set:
the five decoded sub-blocks (contracted widths 532/45/3/27/3). -/
structure CoeffDict where
  id : List ℚ
  exp : List ℚ
  angle : List ℚ
  gamma : List ℚ
  trans : List ℚ
deriving DecidableEq, Repr

/-- The decoded sub-blocks have the contracted widths 532/45/3/27/3. -/
def validDict (d : CoeffDict) : Prop :=
  d.id.length = 532 ∧ d.exp.length = 45 ∧ d.angle.length = 3 ∧
    d.gamma.length = 27 ∧ d.trans.length = 3

instance (d : CoeffDict) : Decidable (validDict d) := by
  unfold validDict; infer_instance

/-- Some decoded sub-block width disagrees with the fixed 45/3/27/3 layout. -/
def badWidths (d : CoeffDict) : Prop :=
  d.exp.length ≠ 45 ∨ d.angle.length ≠ 3 ∨ d.gamma.length ≠ 27 ∨
    d.trans.length ≠ 3

instance (d : CoeffDict) : Decidable (badWidths d) := by
  unfold badWidths; infer_instance

/-- Some decoded sub-block width both disagrees with the fixed 45/3/27/3
layout and is not the broadcastable singleton width 1. -/
def badWidthsStrict (d : CoeffDict) : Prop :=
  (d.exp.length ≠ 45 ∧ d.exp.length ≠ 1)
    ∨ (d.angle.length ≠ 3 ∧ d.angle.length ≠ 1)
    ∨ (d.gamma.length ≠ 27 ∧ d.gamma.length ≠ 1)
    ∨ (d.trans.length ≠ 3 ∧ d.trans.length ≠ 1)

instance (d : CoeffDict) : Decidable (badWidthsStrict d) := by
  unfold badWidthsStrict; infer_instance

/-- Concrete one-view dictionary whose exp block has the broadcastable
singleton width 1, which disagrees with the 45/3/27/3 layout. -/
def broadcastDict : CoeffDict :=
  ⟨List.replicate 532 0, [7], List.replicate 3 5, List.replicate 27 7,
   List.replicate 3 11⟩

/-- Embeds the torch slice assignment `xs[:, p:p+n] = b` (lines 74-80),
including broadcasting: a block of width `n` is written as is, a block of
the singleton width 1 is broadcast across the whole slice, and any other
width fails with the shape-mismatch error. -/
def setSlice (xs : List ℚ) (p n : ℕ) (b : List ℚ) : Except String (List ℚ) :=
  if (b.length = n ∨ b.length = 1) ∧ p + n ≤ xs.length then
    Except.ok (xs.take p
      ++ (if b.length = 1 then List.replicate n (b.getD 0 0) else b)
      ++ xs.drop (p + n))
  else
    Except.error "ShapeMismatchError"

/-- Embeds the torch in-place slice addition `xs[:, p:p+n] += b` (line 73),
with the same broadcasting rule as `setSlice`: width `n` adds elementwise,
the singleton width 1 broadcasts, anything else fails. -/
def addSlice (xs : List ℚ) (p n : ℕ) (b : List ℚ) : Except String (List ℚ) :=
  if (b.length = n ∨ b.length = 1) ∧ p + n ≤ xs.length then
    Except.ok (xs.take p
      ++ List.zipWith (· + ·) ((xs.drop p).take n)
          (if b.length = 1 then List.replicate n (b.getD 0 0) else b)
      ++ xs.drop (p + n))
  else
    Except.error "ShapeMismatchError"

/-- Embeds the packing loop of `MVFitter.__init__` (lines 70-81): for each
view, add the id block onto `[0, 532)` and write exp/angle/gamma/trans at
the running cursor. -/
def packViews : List ℚ → ℕ → List CoeffDict → Except String (List ℚ)
  | acc, _, [] => Except.ok acc
  | acc, cur_pos, d :: rest =>
    match addSlice acc 0 532 d.id with
    | Except.error e => Except.error e
    | Except.ok a1 =>
      match setSlice a1 cur_pos 45 d.exp with
      | Except.error e => Except.error e
      | Except.ok a2 =>
        match setSlice a2 (cur_pos + 45) 3 d.angle with
        | Except.error e => Except.error e
        | Except.ok a3 =>
          match setSlice a3 (cur_pos + 48) 27 d.gamma with
          | Except.error e => Except.error e
          | Except.ok a4 =>
            match setSlice a4 (cur_pos + 75) 3 d.trans with
            | Except.error e => Except.error e
            | Except.ok a5 => packViews a5 (cur_pos + 78) rest

/-- Embeds lines 68-82 of `MVFitter.__init__`: allocate the packed zero
tensor of width `532 + V*(45+3+27+3)`, run the packing loop from cursor 532,
then divide the identity slice `[0, 532)` by the view count. -/
def pack_coeffs (dicts : List CoeffDict) : Except String (List ℚ) :=
  match packViews (List.replicate (532 + dicts.length * 78) (0 : ℚ)) 532 dicts with
  | Except.error e => Except.error e
  | Except.ok packed =>
      Except.ok ((packed.take 532).map (· / (dicts.length : ℚ)) ++ packed.drop 532)

/-- The per-view block written at offset `532 + i*78`: exp, angle, gamma,
trans concatenated in that order. -/
def viewBlock (d : CoeffDict) : List ℚ :=
  d.exp ++ d.angle ++ d.gamma ++ d.trans

/-- Elementwise accumulation of the per-view identity blocks, as performed
by the repeated `+=` on the identity slice. -/
def sumIds (dicts : List CoeffDict) : List ℚ :=
  dicts.foldl (fun s d => List.zipWith (· + ·) s d.id) (List.replicate 532 (0 : ℚ))

/-- What an optimizer parameter-group entry of `opt_setting_dict_list`
refers to: a whole attribute of self, a column slice of an attribute, or an
item of a dict-valued attribute. -/
inductive ParamRef where
  | attr_whole (a : String) : ParamRef
  | attr_slice (a : String) (lo hi : ℕ) : ParamRef
  | attr_item (a k : String) : ParamRef
deriving DecidableEq, Repr

/-- One optimizer parameter group: the referenced params and the base
learning rate. -/
structure OptGroup where
  params : ParamRef
  lr : ℚ
deriving DecidableEq, Repr

/-- Every attribute name that appears as an assignment target `self.X = ...`
(or is mutated in place) anywhere in the `MVFitter` class.  Note that
`coeffs_opt_dict` is absent: line 72 binds only the local variable
`coeffs_opt_dict`, never the attribute. -/
def assignedAttrs : List String :=
  ["facemodel", "tex_gan", "renderer", "net_recog", "net_vgg",
   "w_feat", "w_color", "w_vgg", "w_reg_id", "w_reg_exp", "w_reg_gamma",
   "w_reg_latent", "w_lm", "initial_lr", "tex_lr_scale", "pose_lr_scale",
   "lr_rampdown_length", "total_step", "print_freq", "visual_freq",
   "input_img", "skin_mask", "parse_mask", "gt_lm", "trans_m",
   "input_img_feat", "coeffs_opt", "latents_z_opt", "latents_w_opt",
   "initial_lr_list", "optimizer", "now_step", "logger",
   "pred_vertex", "pred_tex", "pred_shading", "pred_color", "pred_lm",
   "pred_uv_map", "render_head_mask", "render_head", "render_face_mask",
   "render_face", "loss_names", "loss_all", "loss_feat", "loss_color",
   "loss_vgg", "loss_reg_id", "loss_reg_exp", "loss_reg_gamma",
   "loss_reg_latent", "loss_lm"]

/-- Models Python attribute lookup on `self` when the optimizer groups are
built: a reference resolves only when the attribute it names has been
assigned somewhere in the class. -/
def resolveParamRef : ParamRef → Bool
  | ParamRef.attr_whole a => assignedAttrs.contains a
  | ParamRef.attr_slice a _ _ => assignedAttrs.contains a
  | ParamRef.attr_item a _ => assignedAttrs.contains a

/-- Embeds the construction of `opt_setting_dict_list` (lines 93-118): the
appearance-latent group, the shared-identity slice group, then for each view
the exp/angle/gamma/trans groups, all referring to the dict-valued attribute
`coeffs_opt_dict`. -/
def opt_setting_dict_list (num_imgs : ℕ) (initial_lr tex_lr_scale pose_lr_scale : ℚ) :
    List OptGroup :=
  [⟨ParamRef.attr_whole "latents_w_opt", initial_lr * tex_lr_scale⟩,
   ⟨ParamRef.attr_slice "coeffs_opt" 0 532, initial_lr⟩]
  ++ (List.range num_imgs).flatMap (fun _ =>
      [⟨ParamRef.attr_item "coeffs_opt_dict" "exp", initial_lr⟩,
       ⟨ParamRef.attr_item "coeffs_opt_dict" "angle", initial_lr * pose_lr_scale⟩,
       ⟨ParamRef.attr_item "coeffs_opt_dict" "gamma", initial_lr * tex_lr_scale⟩,
       ⟨ParamRef.attr_item "coeffs_opt_dict" "trans", initial_lr * pose_lr_scale⟩])

/-- Embeds the ramp factor of `update_learning_rate` (lines 132-135):
`t = step/total`, `lin = min(1, (1-t)/r)`, `0.5 - 0.5*cos(lin*pi)`. -/
noncomputable def lr_ramp (step total : ℕ) (r : ℝ) : ℝ :=
  let t : ℝ := (step : ℝ) / (total : ℝ)
  let lin : ℝ := min 1 ((1 - t) / r)
  0.5 - 0.5 * Real.cos (lin * Real.pi)

/-- Embeds the group update of `update_learning_rate` (lines 136-138):
each base rate of `initial_lr_list` is multiplied by the common ramp. -/
noncomputable def update_learning_rate (initial_lr_list : List ℝ)
    (now_step total : ℕ) (r : ℝ) : List ℝ :=
  initial_lr_list.map (fun base => base * lr_ramp now_step total r)

/-- Value held by `self.loss_all`: either the plain python float it is
initialized to (line 158), or a gradient-carrying torch tensor produced by
accumulating weighted tensor loss terms. -/
inductive LossVal where
  | scalar (x : ℚ) : LossVal
  | tensor (x : ℚ) : LossVal
deriving DecidableEq, Repr

/-- Numeric value carried by the accumulator. -/
def LossVal.val : LossVal → ℚ
  | LossVal.scalar x => x
  | LossVal.tensor x => x

/-- Models `self.loss_all += weighted_term`: adding a torch tensor to either
a python float or a tensor yields a tensor. -/
def LossVal.addTerm : LossVal → ℚ → LossVal
  | v, x => LossVal.tensor (v.val + x)

/-- Models whether `.backward()` is applicable: torch tensors support it,
plain python floats do not. -/
def LossVal.has_backward : LossVal → Bool
  | LossVal.scalar _ => false
  | LossVal.tensor _ => true

/-- The eight loss-term weights (kwargs of `__init__`, lines 35-42). -/
structure LossWeights where
  w_feat : ℚ
  w_color : ℚ
  w_vgg : ℚ
  w_reg_id : ℚ
  w_reg_exp : ℚ
  w_reg_gamma : ℚ
  w_reg_latent : ℚ
  w_lm : ℚ
deriving DecidableEq, Repr

/-- Default configuration: every weight kwarg defaults to 0 (lines 35-42). -/
def default_weights : LossWeights :=
  ⟨0, 0, 0, 0, 0, 0, 0, 0⟩

/-- Values of the individual loss terms for one call, as computed by the
external loss functions on the current predicted state. -/
structure LossTerms where
  loss_feat : ℚ
  loss_color : ℚ
  loss_vgg : ℚ
  loss_reg_id : ℚ
  loss_reg_exp : ℚ
  loss_reg_gamma : ℚ
  loss_reg_latent : ℚ
  loss_lm : ℚ
deriving DecidableEq, Repr

/-- Embeds `MVFitter.compute_losses` (lines 155-203): starts from the plain
float 0 and the name list `["all"]`, then conditionally accumulates each
weighted term and appends its name; the three coefficient-regression terms
are guarded by one joint test on their three weights. -/
def compute_losses (w : LossWeights) (t : LossTerms) : LossVal × List String :=
  let s0 : LossVal × List String := (LossVal.scalar 0, ["all"])
  let s1 := if 0 < w.w_feat then
      (s0.1.addTerm (w.w_feat * t.loss_feat), s0.2 ++ ["feat"]) else s0
  let s2 := if 0 < w.w_color then
      (s1.1.addTerm (w.w_color * t.loss_color), s1.2 ++ ["color"]) else s1
  let s3 := if 0 < w.w_vgg then
      (s2.1.addTerm (w.w_vgg * t.loss_vgg), s2.2 ++ ["vgg"]) else s2
  let s4 := if 0 < w.w_reg_id ∨ 0 < w.w_reg_exp ∨ 0 < w.w_reg_gamma then
      (((s3.1.addTerm (w.w_reg_id * t.loss_reg_id)).addTerm
          (w.w_reg_exp * t.loss_reg_exp)).addTerm (w.w_reg_gamma * t.loss_reg_gamma),
        s3.2 ++ ["reg_id", "reg_exp", "reg_gamma"]) else s3
  let s5 := if 0 < w.w_reg_latent then
      (s4.1.addTerm (w.w_reg_latent * t.loss_reg_latent), s4.2 ++ ["reg_latent"]) else s4
  if 0 < w.w_lm then
    (s5.1.addTerm (w.w_lm * t.loss_lm), s5.2 ++ ["lm"]) else s5

/-- Weighted contribution associated with a logged term name. -/
def term_value (w : LossWeights) (t : LossTerms) : String → ℚ
  | "feat" => w.w_feat * t.loss_feat
  | "color" => w.w_color * t.loss_color
  | "vgg" => w.w_vgg * t.loss_vgg
  | "reg_id" => w.w_reg_id * t.loss_reg_id
  | "reg_exp" => w.w_reg_exp * t.loss_reg_exp
  | "reg_gamma" => w.w_reg_gamma * t.loss_reg_gamma
  | "reg_latent" => w.w_reg_latent * t.loss_reg_latent
  | "lm" => w.w_lm * t.loss_lm
  | _ => 0

/-- Embeds the precomputation of `self.input_img_feat` (lines 60-64): for
each view index, the recognition network is evaluated under `torch.no_grad`
on the whole image list and transform list, and the result appended. -/
def compute_input_img_feat (net_recog_fn : List Tensor → List Tensor → Tensor)
    (input_img trans_m : List Tensor) (num_imgs : ℕ) : List Tensor :=
  (List.range num_imgs).foldl
    (fun acc _ => acc ++ [noGrad (net_recog_fn input_img trans_m)]) []

/-- The mutable attributes of the fitter touched by the iteration loop. -/
structure FitterState where
  coeffs_opt : Tensor
  latents_w_opt : Tensor
  latents_z_opt : Tensor
  now_step : ℕ
deriving DecidableEq, Repr

/-- Embeds lines 85-90 of `__init__`: adopt the supplied z latent or draw
one from the texture network, map it to w once, and mark w as the tensor
searched by the optimization. -/
def init_latents (get_init_z_latents : Unit → Tensor) (map_z_to_w : Tensor → Tensor)
    (init_latents_z : Option Tensor) : Tensor × Tensor :=
  let latents_z_opt := match init_latents_z with
    | some z => z
    | none => get_init_z_latents ()
  let latents_w_opt := map_z_to_w latents_z_opt
  (latents_z_opt, { latents_w_opt with requires_grad := true })

/-- Embeds `optimize_parameters` (lines 205-212): schedule update, forward,
losses, zero_grad, backward and the optimizer step.  The optimizer step
writes new data in place into the registered parameters, i.e. the packed
coefficients and the w latent, here supplied as the abstract gradient update
`upd`; the step counter increments; nothing else is written. -/
def optimize_parameters (upd : FitterState → List ℚ × List ℚ)
    (s : FitterState) : FitterState :=
  { s with
    coeffs_opt := { s.coeffs_opt with data := (upd s).1 }
    latents_w_opt := { s.latents_w_opt with data := (upd s).2 }
    now_step := s.now_step + 1 }

/-- Embeds the optimization loop of `iterate` (lines 247-260): `total_step`
successive calls to `optimize_parameters` (logging is a pure side effect on
the logger collaborator and does not touch the state). -/
def iterate_steps (upd : FitterState → List ℚ × List ℚ) :
    ℕ → FitterState → FitterState
  | 0, s => s
  | n + 1, s => iterate_steps upd n (optimize_parameters upd s)

/-- Embeds the finalization of `iterate` (lines 262-265): detach and clone
the packed coefficients and the w latent, derive z by the inverse map from
the final w and detach and clone it; returns (coeffs, z, w).  The arguments
`f1 f2 f3` supply the fresh storages of the three clones. -/
def iterate_finalize (inverse_w_to_z : Tensor → Tensor)
    (upd : FitterState → List ℚ × List ℚ) (total_step : ℕ) (s : FitterState)
    (f1 f2 f3 : ℕ) : Tensor × Tensor × Tensor :=
  let sF := iterate_steps upd total_step s
  let final_coeffs := (Tensor.detach sF.coeffs_opt).clone f1
  let final_latents_w := (Tensor.detach sF.latents_w_opt).clone f2
  let final_latents_z := (Tensor.detach (inverse_w_to_z final_latents_w)).clone f3
  (final_coeffs, final_latents_z, final_latents_w)

/-- Concrete one-view coefficient dictionary used by witnesses. -/
def sampleDict : CoeffDict :=
  ⟨List.replicate 532 2, List.replicate 45 3, List.replicate 3 5,
   List.replicate 27 7, List.replicate 3 11⟩

/-- Concrete fitter state used by witnesses. -/
def sampleState : FitterState :=
  ⟨⟨[1], true, 0⟩, ⟨[2], true, 1⟩, ⟨[3], false, 2⟩, 0⟩

theorem term_value_feat (w : LossWeights) (t : LossTerms) :
    term_value w t "feat" = w.w_feat * t.loss_feat := rfl

theorem term_value_color (w : LossWeights) (t : LossTerms) :
    term_value w t "color" = w.w_color * t.loss_color := rfl

theorem term_value_vgg (w : LossWeights) (t : LossTerms) :
    term_value w t "vgg" = w.w_vgg * t.loss_vgg := rfl

theorem term_value_reg_id (w : LossWeights) (t : LossTerms) :
    term_value w t "reg_id" = w.w_reg_id * t.loss_reg_id := rfl

theorem term_value_reg_exp (w : LossWeights) (t : LossTerms) :
    term_value w t "reg_exp" = w.w_reg_exp * t.loss_reg_exp := rfl

theorem term_value_reg_gamma (w : LossWeights) (t : LossTerms) :
    term_value w t "reg_gamma" = w.w_reg_gamma * t.loss_reg_gamma := rfl

theorem term_value_reg_latent (w : LossWeights) (t : LossTerms) :
    term_value w t "reg_latent" = w.w_reg_latent * t.loss_reg_latent := rfl

theorem term_value_lm (w : LossWeights) (t : LossTerms) :
    term_value w t "lm" = w.w_lm * t.loss_lm := rfl

/-- Full characterization of the logged name list: the conditional blocks
in source order after the initial `all`. -/
theorem compute_losses_names_eq (w : LossWeights) (t : LossTerms) :
    (compute_losses w t).2 =
      "all" :: ((if 0 < w.w_feat then ["feat"] else [])
        ++ (if 0 < w.w_color then ["color"] else [])
        ++ (if 0 < w.w_vgg then ["vgg"] else [])
        ++ (if 0 < w.w_reg_id ∨ 0 < w.w_reg_exp ∨ 0 < w.w_reg_gamma then
              ["reg_id", "reg_exp", "reg_gamma"] else [])
        ++ (if 0 < w.w_reg_latent then ["reg_latent"] else [])
        ++ (if 0 < w.w_lm then ["lm"] else [])) := by
  unfold compute_losses
  split_ifs <;> simp

/-- Full characterization of the accumulated scalar: the conditional
weighted contributions in source order. -/
theorem compute_losses_val_eq (w : LossWeights) (t : LossTerms) :
    (compute_losses w t).1.val =
      (if 0 < w.w_feat then w.w_feat * t.loss_feat else 0)
        + (if 0 < w.w_color then w.w_color * t.loss_color else 0)
        + (if 0 < w.w_vgg then w.w_vgg * t.loss_vgg else 0)
        + (if 0 < w.w_reg_id ∨ 0 < w.w_reg_exp ∨ 0 < w.w_reg_gamma then
             w.w_reg_id * t.loss_reg_id + w.w_reg_exp * t.loss_reg_exp
               + w.w_reg_gamma * t.loss_reg_gamma else 0)
        + (if 0 < w.w_reg_latent then w.w_reg_latent * t.loss_reg_latent else 0)
        + (if 0 < w.w_lm then w.w_lm * t.loss_lm else 0) := by
  unfold compute_losses
  split_ifs <;> simp [LossVal.addTerm, LossVal.val] <;> ring

/-- C3 (counterexample): with `w_reg_id = 1` and every other weight 0, the
coefficient-regression term `reg_exp`, whose weight is 0, nevertheless
appears in the logged active-term name list, refuting the claim that a term
with nonpositive weight never appears and that the three regression terms
are gated individually. -/
theorem reg_term_zero_weight_listed_cex :
    (⟨0, 0, 0, 1, 0, 0, 0, 0⟩ : LossWeights).w_reg_exp = 0
    ∧ "reg_exp" ∈
        (compute_losses ⟨0, 0, 0, 1, 0, 0, 0, 0⟩ ⟨0, 0, 0, 0, 0, 0, 0, 0⟩).2 := by
  constructor
  · rfl
  · rw [compute_losses_names_eq]
    norm_num

/-- C3 (amended): each of the terms feat/color/vgg/reg_latent/lm is gated
individually (it appears in the logged list and contributes its weighted
value exactly when its weight is strictly positive, and contributes 0
otherwise), while the three coefficient-regression terms share one joint
gate: the names reg_id, reg_exp, reg_gamma all appear exactly when at least
one of the three regression weights is strictly positive, and each then
contributes its own weight times its value, which is 0 whenever that weight
is 0. -/
theorem loss_term_gating_amended (w : LossWeights) (t : LossTerms) :
    (compute_losses w t).2 =
      "all" :: ((if 0 < w.w_feat then ["feat"] else [])
        ++ (if 0 < w.w_color then ["color"] else [])
        ++ (if 0 < w.w_vgg then ["vgg"] else [])
        ++ (if 0 < w.w_reg_id ∨ 0 < w.w_reg_exp ∨ 0 < w.w_reg_gamma then
              ["reg_id", "reg_exp", "reg_gamma"] else [])
        ++ (if 0 < w.w_reg_latent then ["reg_latent"] else [])
        ++ (if 0 < w.w_lm then ["lm"] else []))
    ∧ (compute_losses w t).1.val =
      (if 0 < w.w_feat then w.w_feat * t.loss_feat else 0)
        + (if 0 < w.w_color then w.w_color * t.loss_color else 0)
        + (if 0 < w.w_vgg then w.w_vgg * t.loss_vgg else 0)
        + (if 0 < w.w_reg_id ∨ 0 < w.w_reg_exp ∨ 0 < w.w_reg_gamma then
             w.w_reg_id * t.loss_reg_id + w.w_reg_exp * t.loss_reg_exp
               + w.w_reg_gamma * t.loss_reg_gamma else 0)
        + (if 0 < w.w_reg_latent then w.w_reg_latent * t.loss_reg_latent else 0)
        + (if 0 < w.w_lm then w.w_lm * t.loss_lm else 0) :=
  ⟨compute_losses_names_eq w t, compute_losses_val_eq w t⟩

/-- C5: on every call the accumulated scalar equals the sum, over the
logged term names after the leading entry, of weight times term value; the
logged list always begins with `all`; and for a fixed weight configuration
the logged name list is identical on every call, whatever the term values
of the call are. -/
theorem loss_aggregation_spec (w : LossWeights) (t t2 : LossTerms) :
    (compute_losses w t).2.head? = some "all"
    ∧ (compute_losses w t).1.val
        = (((compute_losses w t).2.drop 1).map (term_value w t)).sum
    ∧ (compute_losses w t).2 = (compute_losses w t2).2 := by
  refine ⟨?_, ?_, ?_⟩
  · rw [compute_losses_names_eq]
    rfl
  · rw [compute_losses_val_eq, compute_losses_names_eq]
    split_ifs <;>
      simp [term_value_feat, term_value_color, term_value_vgg, term_value_reg_id,
        term_value_reg_exp, term_value_reg_gamma, term_value_reg_latent,
        term_value_lm] <;>
      ring
  · rw [compute_losses_names_eq, compute_losses_names_eq]

/-- C9: when every one of the eight term weights is nonpositive, as in the
default configuration where all default to 0, the loss computation returns
the plain numeric scalar 0 (not a gradient-carrying tensor) together with
the name list `["all"]`, and `.backward()` is not applicable to it. -/
theorem nonpositive_weights_plain_zero_loss (w : LossWeights) (t : LossTerms)
    (h : w.w_feat ≤ 0 ∧ w.w_color ≤ 0 ∧ w.w_vgg ≤ 0 ∧ w.w_reg_id ≤ 0
      ∧ w.w_reg_exp ≤ 0 ∧ w.w_reg_gamma ≤ 0 ∧ w.w_reg_latent ≤ 0 ∧ w.w_lm ≤ 0) :
    compute_losses w t = (LossVal.scalar 0, ["all"])
    ∧ (compute_losses w t).1.has_backward = false := by
  obtain ⟨h1, h2, h3, h4, h5, h6, h7, h8⟩ := h
  have hor : ¬ (0 < w.w_reg_id ∨ 0 < w.w_reg_exp ∨ 0 < w.w_reg_gamma) := by
    push_neg
    exact ⟨h4, h5, h6⟩
  have e : compute_losses w t = (LossVal.scalar 0, ["all"]) := by
    simp only [compute_losses]
    rw [if_neg (not_lt.mpr h1), if_neg (not_lt.mpr h2), if_neg (not_lt.mpr h3),
      if_neg hor, if_neg (not_lt.mpr h7), if_neg (not_lt.mpr h8)]
  refine ⟨e, ?_⟩
  rw [e]
  rfl

/-- Witness for C9 at the default configuration. -/
theorem nonpositive_weights_plain_zero_loss_witness :
    (default_weights.w_feat ≤ 0 ∧ default_weights.w_color ≤ 0
      ∧ default_weights.w_vgg ≤ 0 ∧ default_weights.w_reg_id ≤ 0
      ∧ default_weights.w_reg_exp ≤ 0 ∧ default_weights.w_reg_gamma ≤ 0
      ∧ default_weights.w_reg_latent ≤ 0 ∧ default_weights.w_lm ≤ 0)
    ∧ (compute_losses default_weights ⟨1, 2, 3, 4, 5, 6, 7, 8⟩
        = (LossVal.scalar 0, ["all"])
      ∧ (compute_losses default_weights ⟨1, 2, 3, 4, 5, 6, 7, 8⟩).1.has_backward
          = false) :=
  ⟨by decide,
   nonpositive_weights_plain_zero_loss default_weights ⟨1, 2, 3, 4, 5, 6, 7, 8⟩
     (by decide)⟩

theorem foldl_append_replicate {α : Type} (c : α) (n : ℕ) (init : List α) :
    (List.range n).foldl (fun acc _ => acc ++ [c]) init
      = init ++ List.replicate n c := by
  induction n with
  | zero => simp
  | succ n ih =>
    rw [List.range_succ, List.foldl_append, ih, List.replicate_succ']
    simp

theorem getD_replicate_of_lt {α : Type} (c d : α) (n i : ℕ) (h : i < n) :
    (List.replicate n c).getD i d = c := by
  induction n generalizing i with
  | zero => omega
  | succ n ih =>
    cases i with
    | zero => rfl
    | succ i => simpa [List.replicate_succ] using ih i (by omega)

theorem iterate_steps_frame (upd : FitterState → List ℚ × List ℚ) (n : ℕ)
    (s : FitterState) :
    (iterate_steps upd n s).latents_z_opt = s.latents_z_opt
    ∧ (iterate_steps upd n s).coeffs_opt.storage = s.coeffs_opt.storage
    ∧ (iterate_steps upd n s).latents_w_opt.storage = s.latents_w_opt.storage := by
  induction n generalizing s with
  | zero => exact ⟨rfl, rfl, rfl⟩
  | succ n ih =>
    simpa [iterate_steps, optimize_parameters] using ih (optimize_parameters upd s)

/-- C10: every entry of the precomputed input-feature list is the
recognition network evaluated, with gradient tracking disabled, on the
whole image list and transform list; hence the list has one entry per view,
all entries are equal, independent of the view index, and none carries
gradient-tracking metadata. -/
theorem input_img_feat_constant (net_recog_fn : List Tensor → List Tensor → Tensor)
    (input_img trans_m : List Tensor) (num_imgs : ℕ) :
    (compute_input_img_feat net_recog_fn input_img trans_m num_imgs).length = num_imgs
    ∧ (∀ i, i < num_imgs →
        (compute_input_img_feat net_recog_fn input_img trans_m num_imgs).getD i
            (Tensor.mk [] false 0)
          = noGrad (net_recog_fn input_img trans_m))
    ∧ (∀ i, i < num_imgs →
        ((compute_input_img_feat net_recog_fn input_img trans_m num_imgs).getD i
            (Tensor.mk [] false 0)).requires_grad = false) := by
  have e : compute_input_img_feat net_recog_fn input_img trans_m num_imgs
      = List.replicate num_imgs (noGrad (net_recog_fn input_img trans_m)) := by
    unfold compute_input_img_feat
    rw [foldl_append_replicate]
    rfl
  refine ⟨by rw [e]; simp, ?_, ?_⟩
  · intro i hi
    rw [e, getD_replicate_of_lt _ _ _ _ hi]
  · intro i hi
    rw [e, getD_replicate_of_lt _ _ _ _ hi]
    rfl

/-- Witness for C10 on a concrete recognition function and two views. -/
theorem input_img_feat_constant_witness :
    (1 < 2)
    ∧ (compute_input_img_feat (fun _ _ => Tensor.mk [9] true 7) [] [] 2).getD 1
        (Tensor.mk [] false 0)
      = noGrad (Tensor.mk [9] true 7)
    ∧ ((compute_input_img_feat (fun _ _ => Tensor.mk [9] true 7) [] [] 2).getD 1
        (Tensor.mk [] false 0)).requires_grad = false :=
  ⟨by decide,
   (input_img_feat_constant (fun _ _ => Tensor.mk [9] true 7) [] [] 2).2.1 1
     (by decide),
   (input_img_feat_constant (fun _ _ => Tensor.mk [9] true 7) [] [] 2).2.2 1
     (by decide)⟩

/-- C7: the z latent is fixed at initialization to the supplied value or,
absent one, to the output of the texture-network initializer; no
optimization step writes it, over any number of steps; and the returned z
is derived at finalization by the inverse w-to-z map applied to the final,
already detached and cloned, w latent. -/
theorem latents_z_never_written (get_init_z_latents : Unit → Tensor)
    (map_z_to_w inverse_w_to_z : Tensor → Tensor) (z0 : Option Tensor)
    (upd : FitterState → List ℚ × List ℚ) (n : ℕ) (s : FitterState)
    (f1 f2 f3 : ℕ) :
    (init_latents get_init_z_latents map_z_to_w z0).1
        = z0.getD (get_init_z_latents ())
    ∧ (iterate_steps upd n s).latents_z_opt = s.latents_z_opt
    ∧ (iterate_finalize inverse_w_to_z upd n s f1 f2 f3).2.1
        = ((inverse_w_to_z
            (iterate_finalize inverse_w_to_z upd n s f1 f2 f3).2.2).detach).clone f3 := by
  refine ⟨?_, (iterate_steps_frame upd n s).1, rfl⟩
  cases z0 <;> rfl

/-- C8: whatever the number of steps, the three values returned by
`iterate` carry no gradient-tracking metadata, live in the fresh storages
supplied to the clones, and in particular do not alias the storages of the
optimized tensors. -/
theorem finalize_outputs_detached (inverse_w_to_z : Tensor → Tensor)
    (upd : FitterState → List ℚ × List ℚ) (total_step : ℕ) (s : FitterState)
    (f1 f2 f3 : ℕ)
    (h1 : f1 ≠ s.coeffs_opt.storage) (h2 : f2 ≠ s.latents_w_opt.storage) :
    ((iterate_finalize inverse_w_to_z upd total_step s f1 f2 f3).1.requires_grad = false
      ∧ (iterate_finalize inverse_w_to_z upd total_step s f1 f2 f3).2.1.requires_grad = false
      ∧ (iterate_finalize inverse_w_to_z upd total_step s f1 f2 f3).2.2.requires_grad = false)
    ∧ ((iterate_finalize inverse_w_to_z upd total_step s f1 f2 f3).1.storage = f1
      ∧ (iterate_finalize inverse_w_to_z upd total_step s f1 f2 f3).2.1.storage = f3
      ∧ (iterate_finalize inverse_w_to_z upd total_step s f1 f2 f3).2.2.storage = f2)
    ∧ (iterate_finalize inverse_w_to_z upd total_step s f1 f2 f3).1.storage
        ≠ (iterate_steps upd total_step s).coeffs_opt.storage
    ∧ (iterate_finalize inverse_w_to_z upd total_step s f1 f2 f3).2.2.storage
        ≠ (iterate_steps upd total_step s).latents_w_opt.storage := by
  refine ⟨⟨rfl, rfl, rfl⟩, ⟨rfl, rfl, rfl⟩, ?_, ?_⟩
  · rw [(iterate_steps_frame upd total_step s).2.1]
    exact h1
  · rw [(iterate_steps_frame upd total_step s).2.2]
    exact h2

/-- Witness for C8 on a concrete run of three steps. -/
theorem finalize_outputs_detached_witness :
    ((10 : ℕ) ≠ sampleState.coeffs_opt.storage
      ∧ (11 : ℕ) ≠ sampleState.latents_w_opt.storage)
    ∧ (((iterate_finalize (fun t => t) (fun _ => ([], [])) 3 sampleState 10 11 12).1.requires_grad
          = false
        ∧ (iterate_finalize (fun t => t) (fun _ => ([], [])) 3 sampleState 10 11 12).2.1.requires_grad
          = false
        ∧ (iterate_finalize (fun t => t) (fun _ => ([], [])) 3 sampleState 10 11 12).2.2.requires_grad
          = false)
      ∧ ((iterate_finalize (fun t => t) (fun _ => ([], [])) 3 sampleState 10 11 12).1.storage = 10
        ∧ (iterate_finalize (fun t => t) (fun _ => ([], [])) 3 sampleState 10 11 12).2.1.storage = 12
        ∧ (iterate_finalize (fun t => t) (fun _ => ([], [])) 3 sampleState 10 11 12).2.2.storage = 11)
      ∧ (iterate_finalize (fun t => t) (fun _ => ([], [])) 3 sampleState 10 11 12).1.storage
          ≠ (iterate_steps (fun _ => ([], [])) 3 sampleState).coeffs_opt.storage
      ∧ (iterate_finalize (fun t => t) (fun _ => ([], [])) 3 sampleState 10 11 12).2.2.storage
          ≠ (iterate_steps (fun _ => ([], [])) 3 sampleState).latents_w_opt.storage) :=
  ⟨⟨by decide, by decide⟩,
   finalize_outputs_detached (fun t => t) (fun _ => ([], [])) 3 sampleState 10 11 12
     (by decide) (by decide)⟩

/-- C1 (code evaluation): for every positive view count, the optimizer
parameter-group list contains per-view groups that refer to the dict-valued
attribute `coeffs_opt_dict`; that attribute is never assigned anywhere in
the class (line 72 binds only a local variable), so the reference does not
resolve, and no per-view group references a slice of the packed tensor
`coeffs_opt` (the only `coeffs_opt` slice referenced is the shared identity
block `[0, 532)`). -/
theorem opt_groups_reference_unassigned_attr (num_imgs : ℕ) (hV : 1 ≤ num_imgs)
    (initial_lr tex_lr_scale pose_lr_scale : ℚ) :
    ((⟨ParamRef.attr_item "coeffs_opt_dict" "exp", initial_lr⟩ : OptGroup)
        ∈ opt_setting_dict_list num_imgs initial_lr tex_lr_scale pose_lr_scale)
    ∧ resolveParamRef (ParamRef.attr_item "coeffs_opt_dict" "exp") = false
    ∧ ∀ g ∈ opt_setting_dict_list num_imgs initial_lr tex_lr_scale pose_lr_scale,
        ∀ lo hi, g.params = ParamRef.attr_slice "coeffs_opt" lo hi →
          lo = 0 ∧ hi = 532 := by
  refine ⟨?_, by decide, ?_⟩
  · unfold opt_setting_dict_list
    rw [List.mem_append]
    right
    rw [List.mem_flatMap]
    exact ⟨0, List.mem_range.mpr hV, by simp⟩
  · intro g hg lo hi hslice
    unfold opt_setting_dict_list at hg
    rw [List.mem_append] at hg
    rcases hg with hg | hg
    · simp only [List.mem_cons, List.not_mem_nil, or_false] at hg
      rcases hg with hg | hg
      · rw [hg] at hslice
        simp at hslice
      · rw [hg] at hslice
        simp at hslice
        omega
    · rw [List.mem_flatMap] at hg
      obtain ⟨_, _, hmem⟩ := hg
      simp only [List.mem_cons, List.not_mem_nil, or_false] at hmem
      rcases hmem with h | h | h | h <;> rw [h] at hslice <;> simp at hslice

/-- Witness for C1 at one view and the default learning rates. -/
theorem opt_groups_reference_unassigned_attr_witness :
    (1 ≤ 1)
    ∧ ((⟨ParamRef.attr_item "coeffs_opt_dict" "exp", (1 : ℚ) / 100⟩ : OptGroup)
        ∈ opt_setting_dict_list 1 ((1 : ℚ) / 100) ((1 : ℚ) / 20) ((1 : ℚ) / 20))
    ∧ resolveParamRef (ParamRef.attr_item "coeffs_opt_dict" "exp") = false :=
  ⟨by decide,
   (opt_groups_reference_unassigned_attr 1 (by decide) ((1 : ℚ) / 100) ((1 : ℚ) / 20)
     ((1 : ℚ) / 20)).1,
   (opt_groups_reference_unassigned_attr 1 (by decide) ((1 : ℚ) / 100) ((1 : ℚ) / 20)
     ((1 : ℚ) / 20)).2.1⟩

theorem getD_map_mul (l : List ℝ) (c : ℝ) (i : ℕ) :
    (l.map (fun b => b * c)).getD i 0 = l.getD i 0 * c := by
  induction l generalizing i with
  | nil => simp
  | cons a l ih =>
    cases i with
    | zero => rfl
    | succ n =>
      rw [List.map_cons, List.getD_cons_succ, List.getD_cons_succ]
      exact ih n

/-- C4: for every total step count at least 1 and rampdown fraction r in
(0, 1] (default 0.25), the ramp factor equals 1 at step 0, is monotonically
non-increasing over the schedule range, reaches 0 at step = total, and the
same ramp scalar multiplies every base learning rate of the group list. -/
theorem lr_ramp_schedule_spec (total : ℕ) (r : ℝ) (htot : 1 ≤ total)
    (hr0 : 0 < r) (hr1 : r ≤ 1) :
    lr_ramp 0 total r = 1
    ∧ (∀ j k : ℕ, j ≤ k → k ≤ total → lr_ramp k total r ≤ lr_ramp j total r)
    ∧ lr_ramp total total r = 0
    ∧ (∀ (lrs : List ℝ) (step i : ℕ),
        (update_learning_rate lrs step total r).getD i 0
          = lrs.getD i 0 * lr_ramp step total r) := by
  have hT : (0 : ℝ) < (total : ℝ) := by
    have : 0 < total := by omega
    exact_mod_cast this
  refine ⟨?_, ?_, ?_, ?_⟩
  · simp only [lr_ramp, Nat.cast_zero, zero_div, sub_zero]
    rw [min_eq_left (one_le_one_div hr0 hr1), one_mul, Real.cos_pi]
    norm_num
  · intro j k hjk hk
    have hkT : (k : ℝ) / (total : ℝ) ≤ 1 := by
      rw [div_le_one hT]
      exact_mod_cast hk
    have hjt : (j : ℝ) / (total : ℝ) ≤ (k : ℝ) / (total : ℝ) := by
      gcongr
    have hlink0 : 0 ≤ min 1 ((1 - (k : ℝ) / (total : ℝ)) / r) := by
      refine le_min zero_le_one ?_
      have : 0 ≤ 1 - (k : ℝ) / (total : ℝ) := by linarith
      positivity
    have hlinj1 : min 1 ((1 - (j : ℝ) / (total : ℝ)) / r) ≤ 1 := min_le_left _ _
    have hmono : min 1 ((1 - (k : ℝ) / (total : ℝ)) / r)
        ≤ min 1 ((1 - (j : ℝ) / (total : ℝ)) / r) := by
      refine min_le_min le_rfl ?_
      gcongr
    have hcos : Real.cos (min 1 ((1 - (j : ℝ) / (total : ℝ)) / r) * Real.pi)
        ≤ Real.cos (min 1 ((1 - (k : ℝ) / (total : ℝ)) / r) * Real.pi) := by
      refine Real.cos_le_cos_of_nonneg_of_le_pi ?_ ?_ ?_
      · exact mul_nonneg hlink0 Real.pi_pos.le
      · calc min 1 ((1 - (j : ℝ) / (total : ℝ)) / r) * Real.pi
            ≤ 1 * Real.pi := by
              exact mul_le_mul_of_nonneg_right hlinj1 Real.pi_pos.le
          _ = Real.pi := one_mul _
      · exact mul_le_mul_of_nonneg_right hmono Real.pi_pos.le
    simp only [lr_ramp]
    linarith
  · simp only [lr_ramp]
    rw [div_self (ne_of_gt hT), sub_self, zero_div]
    rw [min_eq_right (le_of_lt one_pos), zero_mul, Real.cos_zero]
    norm_num
  · intro lrs step i
    unfold update_learning_rate
    exact getD_map_mul lrs (lr_ramp step total r) i

/-- Witness for C4 at total = 4 and the default rampdown fraction 0.25. -/
theorem lr_ramp_schedule_spec_witness :
    (1 ≤ 4) ∧ (0 < (1 / 4 : ℝ)) ∧ ((1 / 4 : ℝ) ≤ 1)
    ∧ lr_ramp 0 4 (1 / 4) = 1
    ∧ lr_ramp 2 4 (1 / 4) ≤ lr_ramp 1 4 (1 / 4)
    ∧ lr_ramp 4 4 (1 / 4) = 0
    ∧ (update_learning_rate [2] 1 4 (1 / 4)).getD 0 0
        = ([(2 : ℝ)].getD 0 0) * lr_ramp 1 4 (1 / 4) := by
  have h := lr_ramp_schedule_spec 4 (1 / 4) (by norm_num) (by norm_num) (by norm_num)
  exact ⟨by norm_num, by norm_num, by norm_num, h.1,
    h.2.1 1 2 (by norm_num) (by norm_num), h.2.2.1, h.2.2.2 [2] 1 0⟩

theorem sampleDict_valid : validDict sampleDict :=
  ⟨List.length_replicate 532 2, List.length_replicate 45 3, List.length_replicate 3 5,
   List.length_replicate 27 7, List.length_replicate 3 11⟩

theorem broadcast_eq_of_length (x : List ℚ) (n : ℕ) (hx : x.length = n) :
    (if x.length = 1 then List.replicate n (x.getD 0 0) else x) = x := by
  split_ifs with h1
  · rw [← hx]
    cases x with
    | nil => simp at h1
    | cons a t =>
      cases t with
      | nil => rfl
      | cons b t2 => simp at h1
  · rfl

theorem addSlice_front (idAcc suf b : List ℚ) (hid : idAcc.length = 532)
    (hb : b.length = 532) :
    addSlice (idAcc ++ suf) 0 532 b
      = Except.ok (List.zipWith (· + ·) idAcc b ++ suf) := by
  unfold addSlice
  rw [if_pos ⟨Or.inl hb, by simp [hid]⟩]
  rw [broadcast_eq_of_length b 532 hb]
  simp [List.take_left' hid, List.drop_left' hid]

theorem setSlice_mid (a : List ℚ) (p m : ℕ) (x : List ℚ) (n : ℕ)
    (hp : a.length = p) (hx : x.length = n) (hn : n ≤ m) :
    setSlice (a ++ List.replicate m (0 : ℚ)) p n x
      = Except.ok (a ++ x ++ List.replicate (m - n) (0 : ℚ)) := by
  unfold setSlice
  rw [if_pos ⟨Or.inl hx, by simp [hp]; omega⟩]
  rw [broadcast_eq_of_length x n hx]
  rw [← hp, List.take_left, List.drop_append, List.drop_replicate]

theorem packViews_cons_step (acc : List ℚ) (c : ℕ) (d : CoeffDict)
    (rest : List CoeffDict) (a1 a2 a3 a4 a5 : List ℚ)
    (h1 : addSlice acc 0 532 d.id = Except.ok a1)
    (h2 : setSlice a1 c 45 d.exp = Except.ok a2)
    (h3 : setSlice a2 (c + 45) 3 d.angle = Except.ok a3)
    (h4 : setSlice a3 (c + 48) 27 d.gamma = Except.ok a4)
    (h5 : setSlice a4 (c + 75) 3 d.trans = Except.ok a5) :
    packViews acc c (d :: rest) = packViews a5 (c + 78) rest := by
  simp only [packViews, h1, h2, h3, h4, h5]

theorem packViews_valid (dicts : List CoeffDict) :
    ∀ (idAcc pre : List ℚ) (c : ℕ), idAcc.length = 532 →
      (∀ d ∈ dicts, validDict d) → c = 532 + pre.length →
      packViews (idAcc ++ pre ++ List.replicate (dicts.length * 78) (0 : ℚ)) c dicts
        = Except.ok (dicts.foldl (fun s d => List.zipWith (· + ·) s d.id) idAcc
            ++ pre ++ dicts.flatMap viewBlock) := by
  induction dicts with
  | nil =>
    intro idAcc pre c hid hv hc
    simp [packViews]
  | cons d rest ih =>
    intro idAcc pre c hid hv hc
    obtain ⟨hdid, hdexp, hdangle, hdgamma, hdtrans⟩ := hv d (List.mem_cons_self d rest)
    have hvrest : ∀ x ∈ rest, validDict x := fun x hx => hv x (List.mem_cons_of_mem d hx)
    have hNew : (List.zipWith (· + ·) idAcc d.id).length = 532 := by
      simp [List.length_zipWith, hid, hdid]
    have hMlen : (d :: rest).length * 78 = 78 + rest.length * 78 := by
      simp [List.length_cons]
      ring
    have e1 : addSlice (idAcc ++ pre ++ List.replicate ((d :: rest).length * 78) (0 : ℚ))
        0 532 d.id
        = Except.ok ((List.zipWith (· + ·) idAcc d.id ++ pre)
            ++ List.replicate ((d :: rest).length * 78) (0 : ℚ)) := by
      rw [List.append_assoc, addSlice_front idAcc _ d.id hid hdid, ← List.append_assoc]
    have e2 := setSlice_mid (List.zipWith (· + ·) idAcc d.id ++ pre) c
      ((d :: rest).length * 78) d.exp 45
      (by simp only [List.length_append, hNew]; omega) hdexp (by omega)
    have e3 := setSlice_mid ((List.zipWith (· + ·) idAcc d.id ++ pre) ++ d.exp) (c + 45)
      ((d :: rest).length * 78 - 45) d.angle 3
      (by simp only [List.length_append, hNew, hdexp]; omega) hdangle (by omega)
    have e4 := setSlice_mid (((List.zipWith (· + ·) idAcc d.id ++ pre) ++ d.exp) ++ d.angle)
      (c + 48) ((d :: rest).length * 78 - 45 - 3) d.gamma 27
      (by simp only [List.length_append, hNew, hdexp, hdangle]; omega) hdgamma (by omega)
    have e5 := setSlice_mid
      ((((List.zipWith (· + ·) idAcc d.id ++ pre) ++ d.exp) ++ d.angle) ++ d.gamma)
      (c + 75) ((d :: rest).length * 78 - 45 - 3 - 27) d.trans 3
      (by simp only [List.length_append, hNew, hdexp, hdangle, hdgamma]; omega) hdtrans
      (by omega)
    rw [packViews_cons_step _ _ _ _ _ _ _ _ _ e1 e2 e3 e4 e5]
    have hrep : (d :: rest).length * 78 - 45 - 3 - 27 - 3 = rest.length * 78 := by omega
    have hacc : ((((List.zipWith (· + ·) idAcc d.id ++ pre) ++ d.exp) ++ d.angle) ++ d.gamma)
          ++ d.trans
          ++ List.replicate ((d :: rest).length * 78 - 45 - 3 - 27 - 3) (0 : ℚ)
        = List.zipWith (· + ·) idAcc d.id ++ (pre ++ viewBlock d)
          ++ List.replicate (rest.length * 78) (0 : ℚ) := by
      rw [hrep]
      simp [viewBlock, List.append_assoc]
    rw [hacc]
    have hc' : c + 78 = 532 + (pre ++ viewBlock d).length := by
      simp only [List.length_append, viewBlock, hdexp, hdangle, hdgamma, hdtrans]
      omega
    rw [ih (List.zipWith (· + ·) idAcc d.id) (pre ++ viewBlock d) (c + 78) hNew hvrest hc']
    congr 1
    simp [List.flatMap_cons, List.append_assoc]

theorem foldl_zipWith_length (dicts : List CoeffDict) :
    ∀ idAcc : List ℚ, idAcc.length = 532 → (∀ d ∈ dicts, d.id.length = 532) →
      (dicts.foldl (fun s d => List.zipWith (· + ·) s d.id) idAcc).length = 532 := by
  induction dicts with
  | nil =>
    intro idAcc hid _
    simpa using hid
  | cons d rest ih =>
    intro idAcc hid hv
    rw [List.foldl_cons]
    exact ih _ (by simp [List.length_zipWith, hid, hv d (List.mem_cons_self d rest)])
      (fun x hx => hv x (List.mem_cons_of_mem d hx))

theorem getD_zipWith_add (a : List ℚ) :
    ∀ (b : List ℚ) (j : ℕ), j < a.length → j < b.length →
      (List.zipWith (· + ·) a b).getD j 0 = a.getD j 0 + b.getD j 0 := by
  induction a with
  | nil =>
    intro b j hj _
    simp at hj
  | cons x a ih =>
    intro b j hja hjb
    cases b with
    | nil => simp at hjb
    | cons y b =>
      cases j with
      | zero => rfl
      | succ j =>
        simp only [List.zipWith_cons_cons, List.getD_cons_succ]
        exact ih b j (by simpa using hja) (by simpa using hjb)

theorem foldl_zipWith_getD (dicts : List CoeffDict) :
    ∀ (idAcc : List ℚ) (j : ℕ), idAcc.length = 532 →
      (∀ d ∈ dicts, d.id.length = 532) → j < 532 →
      (dicts.foldl (fun s d => List.zipWith (· + ·) s d.id) idAcc).getD j 0
        = idAcc.getD j 0 + (dicts.map (fun d => d.id.getD j 0)).sum := by
  induction dicts with
  | nil =>
    intro idAcc j hid hv hj
    simp
  | cons d rest ih =>
    intro idAcc j hid hv hj
    have hdid : d.id.length = 532 := hv d (List.mem_cons_self d rest)
    rw [List.foldl_cons,
      ih _ j (by simp [List.length_zipWith, hid, hdid])
        (fun x hx => hv x (List.mem_cons_of_mem d hx)) hj,
      getD_zipWith_add idAcc d.id j (by rw [hid]; exact hj) (by rw [hdid]; exact hj),
      List.map_cons, List.sum_cons]
    ring

theorem flatMap_viewBlock_drop (dicts : List CoeffDict) :
    ∀ i, (∀ d ∈ dicts, validDict d) → ∀ hi : i < dicts.length,
      ∃ tl, (dicts.flatMap viewBlock).drop (i * 78)
        = viewBlock (dicts.get ⟨i, hi⟩) ++ tl := by
  induction dicts with
  | nil =>
    intro i _ hi
    simp at hi
  | cons d rest ih =>
    intro i hv hi
    cases i with
    | zero => exact ⟨rest.flatMap viewBlock, by simp [List.flatMap_cons]⟩
    | succ i =>
      have hlen : (viewBlock d).length = 78 := by
        obtain ⟨_, h2, h3, h4, h5⟩ := hv d (List.mem_cons_self d rest)
        simp [viewBlock, h2, h3, h4, h5]
      have harith : (i + 1) * 78 = (viewBlock d).length + i * 78 := by
        rw [hlen]
        ring
      rw [List.flatMap_cons, harith, List.drop_append]
      exact ih i (fun x hx => hv x (List.mem_cons_of_mem d hx)) (by simpa using hi)

theorem slices_of_drop (packed : List ℚ) (p : ℕ) (di : CoeffDict) (tl : List ℚ)
    (hvd : validDict di)
    (h : packed.drop p = viewBlock di ++ tl) :
    (packed.drop p).take 45 = di.exp
    ∧ (packed.drop (p + 45)).take 3 = di.angle
    ∧ (packed.drop (p + 48)).take 27 = di.gamma
    ∧ (packed.drop (p + 75)).take 3 = di.trans := by
  obtain ⟨_, h45, h3, h27, h3t⟩ := hvd
  have hblock : viewBlock di ++ tl
      = di.exp ++ (di.angle ++ (di.gamma ++ (di.trans ++ tl))) := by
    simp [viewBlock, List.append_assoc]
  refine ⟨?_, ?_, ?_, ?_⟩
  · rw [h, hblock]
    exact List.take_left' h45
  · rw [← List.drop_drop, h, hblock, List.drop_left' h45]
    exact List.take_left' h3
  · have hgroup : viewBlock di ++ tl
        = (di.exp ++ di.angle) ++ (di.gamma ++ (di.trans ++ tl)) := by
      simp [viewBlock, List.append_assoc]
    rw [← List.drop_drop, h, hgroup, List.drop_left' (by simp [h45, h3])]
    exact List.take_left' h27
  · have hgroup : viewBlock di ++ tl
        = (di.exp ++ di.angle ++ di.gamma) ++ (di.trans ++ tl) := by
      simp [viewBlock, List.append_assoc]
    rw [← List.drop_drop, h, hgroup, List.drop_left' (by simp [h45, h3, h27])]
    exact List.take_left' h3t

theorem flatMap_viewBlock_length (dicts : List CoeffDict) :
    (∀ d ∈ dicts, validDict d) →
      (dicts.flatMap viewBlock).length = dicts.length * 78 := by
  induction dicts with
  | nil =>
    intro _
    simp
  | cons d rest ih =>
    intro hv
    obtain ⟨_, h2, h3, h4, h5⟩ := hv d (List.mem_cons_self d rest)
    rw [List.flatMap_cons, List.length_append,
      ih (fun x hx => hv x (List.mem_cons_of_mem d hx))]
    simp only [viewBlock, List.length_append, h2, h3, h4, h5, List.length_cons]
    omega

theorem pack_coeffs_eq (dicts : List CoeffDict)
    (hv : ∀ d ∈ dicts, validDict d) :
    pack_coeffs dicts
      = Except.ok ((sumIds dicts).map (· / (dicts.length : ℚ))
          ++ dicts.flatMap viewBlock) := by
  unfold pack_coeffs
  have hstart : List.replicate (532 + dicts.length * 78) (0 : ℚ)
      = List.replicate 532 (0 : ℚ) ++ List.replicate (dicts.length * 78) (0 : ℚ) :=
    List.replicate_add 532 (dicts.length * 78) 0
  have hrun := packViews_valid dicts (List.replicate 532 0) [] 532
    (List.length_replicate 532 0) hv (by rw [List.length_nil])
  simp only [List.append_nil] at hrun
  rw [hstart]
  simp only [hrun]
  have hlen : (dicts.foldl (fun s d => List.zipWith (· + ·) s d.id)
      (List.replicate 532 (0 : ℚ))).length = 532 :=
    foldl_zipWith_length dicts _ (List.length_replicate 532 0) (fun d hd => (hv d hd).1)
  rw [List.take_left' hlen, List.drop_left' hlen]
  rfl

/-- C2: for every valid list of V per-view coefficient dictionaries with V
at least 1, packing succeeds and produces a tensor of width exactly
532 + V*78 whose slice [0, 532) is, entrywise, the arithmetic mean of the V
identity blocks, and whose slices at offsets 532 + i*78 hold view i's exp
(45), angle (3), gamma (27) and trans (3) blocks concatenated in that
order, so re-splitting the packed tensor at these offsets reproduces the
original per-view values. -/
theorem pack_coeffs_layout_roundtrip (dicts : List CoeffDict)
    (hV : 1 ≤ dicts.length) (hv : ∀ d ∈ dicts, validDict d) :
    ∃ packed, pack_coeffs dicts = Except.ok packed
      ∧ packed.length = 532 + dicts.length * 78
      ∧ (∀ j, j < 532 →
          packed.getD j 0
            = (dicts.map (fun d => d.id.getD j 0)).sum / (dicts.length : ℚ))
      ∧ (∀ i (hi : i < dicts.length),
          (packed.drop (532 + i * 78)).take 45 = (dicts.get ⟨i, hi⟩).exp
          ∧ (packed.drop (532 + i * 78 + 45)).take 3 = (dicts.get ⟨i, hi⟩).angle
          ∧ (packed.drop (532 + i * 78 + 48)).take 27 = (dicts.get ⟨i, hi⟩).gamma
          ∧ (packed.drop (532 + i * 78 + 75)).take 3 = (dicts.get ⟨i, hi⟩).trans) := by
  have hSumLen : (sumIds dicts).length = 532 :=
    foldl_zipWith_length dicts _ (List.length_replicate 532 0) (fun d hd => (hv d hd).1)
  have hMapLen : ((sumIds dicts).map (· / (dicts.length : ℚ))).length = 532 := by
    rw [List.length_map, hSumLen]
  have hFlatLen : (dicts.flatMap viewBlock).length = dicts.length * 78 :=
    flatMap_viewBlock_length dicts hv
  refine ⟨(sumIds dicts).map (· / (dicts.length : ℚ)) ++ dicts.flatMap viewBlock,
    pack_coeffs_eq dicts hv, ?_, ?_, ?_⟩
  · rw [List.length_append, hMapLen, hFlatLen]
  · intro j hj
    have hj2 : j < (sumIds dicts).length := by
      rw [hSumLen]
      exact hj
    rw [List.getD_append _ _ _ j (by rw [hMapLen]; exact hj)]
    rw [List.getD_eq_getElem _ _ (by rw [hMapLen]; exact hj), List.getElem_map]
    rw [← List.getD_eq_getElem (sumIds dicts) 0 hj2]
    unfold sumIds
    rw [foldl_zipWith_getD dicts _ j (List.length_replicate 532 0)
      (fun d hd => (hv d hd).1) hj]
    rw [getD_replicate_of_lt (0 : ℚ) 0 532 j hj]
    ring
  · intro i hi
    obtain ⟨tl, htl⟩ := flatMap_viewBlock_drop dicts i hv hi
    have hdropP : ((sumIds dicts).map (· / (dicts.length : ℚ))
          ++ dicts.flatMap viewBlock).drop (532 + i * 78)
        = viewBlock (dicts.get ⟨i, hi⟩) ++ tl := by
      have harith : 532 + i * 78
          = ((sumIds dicts).map (· / (dicts.length : ℚ))).length + i * 78 := by
        rw [hMapLen]
      rw [harith, List.drop_append, htl]
    exact slices_of_drop _ (532 + i * 78) _ tl (hv _ (List.get_mem dicts i hi)) hdropP

/-- Witness for C2 on one concrete view. -/
theorem pack_coeffs_layout_roundtrip_witness :
    (1 ≤ [sampleDict].length) ∧ (∀ d ∈ [sampleDict], validDict d)
    ∧ (∃ packed, pack_coeffs [sampleDict] = Except.ok packed
        ∧ packed.length = 532 + [sampleDict].length * 78
        ∧ (∀ j, j < 532 →
            packed.getD j 0
              = ([sampleDict].map (fun d => d.id.getD j 0)).sum
                  / (([sampleDict].length : ℕ) : ℚ))
        ∧ (∀ i (hi : i < [sampleDict].length),
            (packed.drop (532 + i * 78)).take 45 = ([sampleDict].get ⟨i, hi⟩).exp
            ∧ (packed.drop (532 + i * 78 + 45)).take 3 = ([sampleDict].get ⟨i, hi⟩).angle
            ∧ (packed.drop (532 + i * 78 + 48)).take 27 = ([sampleDict].get ⟨i, hi⟩).gamma
            ∧ (packed.drop (532 + i * 78 + 75)).take 3 = ([sampleDict].get ⟨i, hi⟩).trans)) :=
  ⟨by simp,
   fun d hd => by
    rw [List.mem_singleton] at hd
    rw [hd]
    exact sampleDict_valid,
   pack_coeffs_layout_roundtrip [sampleDict] (by simp)
     (fun d hd => by
      rw [List.mem_singleton] at hd
      rw [hd]
      exact sampleDict_valid)⟩

theorem setSlice_error_msg (xs : List ℚ) (p n : ℕ) (b : List ℚ) (e : String)
    (h : setSlice xs p n b = Except.error e) : e = "ShapeMismatchError" := by
  unfold setSlice at h
  split_ifs at h
  exact (Except.error.inj h).symm

theorem addSlice_error_msg (xs : List ℚ) (p n : ℕ) (b : List ℚ) (e : String)
    (h : addSlice xs p n b = Except.error e) : e = "ShapeMismatchError" := by
  unfold addSlice at h
  split_ifs at h
  exact (Except.error.inj h).symm

theorem setSlice_ok_width (xs : List ℚ) (p n : ℕ) (b out : List ℚ)
    (h : setSlice xs p n b = Except.ok out) : b.length = n ∨ b.length = 1 := by
  by_cases hcond : (b.length = n ∨ b.length = 1) ∧ p + n ≤ xs.length
  · exact hcond.1
  · unfold setSlice at h
    rw [if_neg hcond] at h
    exact Except.noConfusion h

theorem packViews_bad (dicts : List CoeffDict) :
    ∀ (acc : List ℚ) (c : ℕ), (∃ d ∈ dicts, badWidthsStrict d) →
      packViews acc c dicts = Except.error "ShapeMismatchError" := by
  induction dicts with
  | nil =>
    intro acc c h
    simp at h
  | cons d rest ih =>
    intro acc c h
    obtain ⟨x, hx, hbad⟩ := h
    simp only [packViews]
    cases h1 : addSlice acc 0 532 d.id with
    | error e =>
      dsimp only
      rw [addSlice_error_msg acc 0 532 d.id e h1]
    | ok a1 =>
      dsimp only
      cases h2 : setSlice a1 c 45 d.exp with
      | error e =>
        dsimp only
        rw [setSlice_error_msg a1 c 45 d.exp e h2]
      | ok a2 =>
        dsimp only
        cases h3 : setSlice a2 (c + 45) 3 d.angle with
        | error e =>
          dsimp only
          rw [setSlice_error_msg a2 (c + 45) 3 d.angle e h3]
        | ok a3 =>
          dsimp only
          cases h4 : setSlice a3 (c + 48) 27 d.gamma with
          | error e =>
            dsimp only
            rw [setSlice_error_msg a3 (c + 48) 27 d.gamma e h4]
          | ok a4 =>
            dsimp only
            cases h5 : setSlice a4 (c + 75) 3 d.trans with
            | error e =>
              dsimp only
              rw [setSlice_error_msg a4 (c + 75) 3 d.trans e h5]
            | ok a5 =>
              dsimp only
              rcases List.mem_cons.mp hx with hxd | hxrest
              · exfalso
                rw [hxd] at hbad
                rcases hbad with hb | hb | hb | hb
                · exact (setSlice_ok_width a1 c 45 d.exp a2 h2).elim hb.1 hb.2
                · exact (setSlice_ok_width a2 (c + 45) 3 d.angle a3 h3).elim hb.1 hb.2
                · exact (setSlice_ok_width a3 (c + 48) 27 d.gamma a4 h4).elim hb.1 hb.2
                · exact (setSlice_ok_width a4 (c + 75) 3 d.trans a5 h5).elim hb.1 hb.2
              · exact ih a5 (c + 78) ⟨x, hxrest, hbad⟩

set_option maxRecDepth 100000 in
/-- C6 (counterexample): a view whose decoded exp block has width 1
disagrees with the fixed 45/3/27/3 layout, yet torch broadcasts the
singleton across the slice and the packing performed by initialization
succeeds instead of failing with the shape-mismatch error. -/
theorem pack_coeffs_broadcast_cex :
    badWidths broadcastDict
    ∧ (pack_coeffs [broadcastDict]).isOk = true := by
  constructor
  · exact Or.inl (by decide)
  · decide

/-- C6 (amended): whenever any supplied per-view coefficient set decodes
to a sub-block whose width both disagrees with the fixed 45/3/27/3 layout
and is not the broadcastable singleton width 1, the packing performed by
initialization fails with the shape-mismatch error, before any
optimization step can execute; a width-1 block instead broadcasts silently
and packing proceeds. -/
theorem pack_coeffs_shape_mismatch (dicts : List CoeffDict)
    (h : ∃ d ∈ dicts, badWidthsStrict d) :
    pack_coeffs dicts = Except.error "ShapeMismatchError" := by
  unfold pack_coeffs
  rw [packViews_bad dicts _ 532 h]

/-- Witness for the amended C6: a view whose decoded blocks are all empty. -/
theorem pack_coeffs_shape_mismatch_witness :
    (∃ d ∈ [(⟨[], [], [], [], []⟩ : CoeffDict)], badWidthsStrict d)
    ∧ pack_coeffs [(⟨[], [], [], [], []⟩ : CoeffDict)]
        = Except.error "ShapeMismatchError" :=
  ⟨⟨⟨[], [], [], [], []⟩, List.mem_singleton.mpr rfl, by decide⟩,
   pack_coeffs_shape_mismatch [(⟨[], [], [], [], []⟩ : CoeffDict)]
     ⟨⟨[], [], [], [], []⟩, List.mem_singleton.mpr rfl, by decide⟩⟩

end MVF
